import Mathlib

/-!
Shallow embedding of the task-manager program (src/src/main.rs) and proofs of
the claims of its specification.

The program keeps an in-memory ordered list of tasks (`TasksManager`, a
`Vec<Task>` in the source) with add / find / edit / remove operations, and
persists the whole list to a JSON file with `store_to_file` / `read_from_file`
(serde_json).  The embedding below translates each operation of the source
into a Lean function; the filesystem is modelled as a partial map from file
names to parsed JSON values, and serde_json is modelled at the JSON-value
level (a value written by `to_writer` is read back identically by
`from_reader`; what remains to verify is the encoding between tasks and JSON
values, which is modelled field by field after the serde derives).
-/

namespace TaskMgr

/-- The source `enum Priority { Low, Medium, High }`. -/
inductive Priority where
  | Low
  | Medium
  | High
deriving DecidableEq, Repr

/-- Source `Priority::to_string`: the manual variant-name mapping. -/
def Priority.to_string : Priority → String
  | .Low => "Low"
  | .Medium => "Medium"
  | .High => "High"

/-- Model of the chrono `DateTime<Local>` type: a local calendar time at second
precision together with a UTC offset, kept in the sign/hours/minutes shape in
which chrono prints it (RFC 3339 `±HH:MM`). -/
structure LocalDateTime where
  year : Nat
  month : Nat
  day : Nat
  hour : Nat
  minute : Nat
  second : Nat
  offNeg : Bool
  offHour : Nat
  offMin : Nat
deriving DecidableEq, Repr

/-- The field ranges every chrono `DateTime<Local>` satisfies by
construction; the embedding carries them as an explicit predicate. -/
def LocalDateTime.Valid (dt : LocalDateTime) : Prop :=
  dt.year < 10000 ∧ 1 ≤ dt.month ∧ dt.month ≤ 12 ∧ 1 ≤ dt.day ∧ dt.day ≤ 31 ∧
  dt.hour < 24 ∧ dt.minute < 60 ∧ dt.second < 60 ∧ dt.offHour < 24 ∧ dt.offMin < 60

instance (dt : LocalDateTime) : Decidable dt.Valid := by
  unfold LocalDateTime.Valid; infer_instance

/-- The decimal digit character for `n` (meaningful for `n < 10`). -/
def digitChar (n : Nat) : Char := Char.ofNat (48 + n)

/-- Two-digit zero-padded decimal rendering, as the chrono `%d`, `%m`, `%H`,
`%M`, `%S` produce for in-range values. -/
def pad2 (n : Nat) : List Char := [digitChar (n / 10), digitChar (n % 10)]

/-- Four-digit zero-padded decimal rendering, as the chrono `%Y` specifier produces for
years below 10000. -/
def pad4 (n : Nat) : List Char :=
  [digitChar (n / 1000), digitChar (n / 100 % 10), digitChar (n / 10 % 10), digitChar (n % 10)]

/-- Source format call `add_time.format("%d-%m-%Y %H:%M:%S")` from `Task::print_task`. -/
def LocalDateTime.format (dt : LocalDateTime) : String :=
  String.mk (pad2 dt.day ++ '-' :: pad2 dt.month ++ '-' :: pad4 dt.year ++
    ' ' :: pad2 dt.hour ++ ':' :: pad2 dt.minute ++ ':' :: pad2 dt.second)

/-- Serialization used by the chrono serde support for a `DateTime<Local>`: the RFC 3339 string
`YYYY-MM-DDTHH:MM:SS±HH:MM` (second precision, numeric offset). -/
def LocalDateTime.toRfc3339 (dt : LocalDateTime) : String :=
  String.mk (pad4 dt.year ++ '-' :: pad2 dt.month ++ '-' :: pad2 dt.day ++
    'T' :: pad2 dt.hour ++ ':' :: pad2 dt.minute ++ ':' :: pad2 dt.second ++
    (if dt.offNeg then '-' else '+') :: pad2 dt.offHour ++ ':' :: pad2 dt.offMin)

/-- Numeric value of a digit character. -/
def digitVal (c : Char) : Nat := c.toNat - 48

/-- Deserialization used by the chrono serde support for a `DateTime<Local>` at second
precision: accepts exactly the fixed-width RFC 3339 shape produced by
`LocalDateTime.toRfc3339`. -/
def parseRfc3339 (s : String) : Option LocalDateTime :=
  match s.data with
  | [y1, y2, y3, y4, c1, mo1, mo2, c2, d1, d2, c3, h1, h2, c4, mi1, mi2, c5, s1, s2,
     sg, o1, o2, c6, o3, o4] =>
    if c1 = '-' ∧ c2 = '-' ∧ c3 = 'T' ∧ c4 = ':' ∧ c5 = ':' ∧ c6 = ':' ∧
       (sg = '+' ∨ sg = '-') ∧
       y1.isDigit ∧ y2.isDigit ∧ y3.isDigit ∧ y4.isDigit ∧
       mo1.isDigit ∧ mo2.isDigit ∧ d1.isDigit ∧ d2.isDigit ∧
       h1.isDigit ∧ h2.isDigit ∧ mi1.isDigit ∧ mi2.isDigit ∧
       s1.isDigit ∧ s2.isDigit ∧ o1.isDigit ∧ o2.isDigit ∧ o3.isDigit ∧ o4.isDigit then
      some { year := digitVal y1 * 1000 + digitVal y2 * 100 + digitVal y3 * 10 + digitVal y4
             month := digitVal mo1 * 10 + digitVal mo2
             day := digitVal d1 * 10 + digitVal d2
             hour := digitVal h1 * 10 + digitVal h2
             minute := digitVal mi1 * 10 + digitVal mi2
             second := digitVal s1 * 10 + digitVal s2
             offNeg := sg == '-'
             offHour := digitVal o1 * 10 + digitVal o2
             offMin := digitVal o3 * 10 + digitVal o4 }
    else none
  | _ => none

/-- The source `struct Task`: name, description, priority, add_time. -/
structure Task where
  name : String
  description : String
  priority : Priority
  add_time : LocalDateTime
deriving DecidableEq, Repr

/-- Source `Task::print_task`: the instantiation of the format
string `"> {} | {} | {}\n/ {} /"` with name, priority label, formatted
timestamp and description. -/
def Task.render (t : Task) : String :=
  "> " ++ t.name ++ " | " ++ t.priority.to_string ++ " | " ++ t.add_time.format ++
  "\n/ " ++ t.description ++ " /"

/-- Split a character list at newline characters (the "lines" of a string,
used to state what `Task::print_task` prints line by line). -/
def lineSplit : List Char → List (List Char)
  | [] => [[]]
  | c :: rest =>
    if c = '\n' then [] :: lineSplit rest
    else
      match lineSplit rest with
      | [] => [[c]]
      | l :: ls => (c :: l) :: ls

/-- The source `struct TasksManager { tasks: Vec<Task> }`. -/
structure TasksManager where
  tasks : List Task
deriving DecidableEq, Repr

/-- Source `TasksManager::new`. -/
def TasksManager.new : TasksManager := ⟨[]⟩

/-- Source `TasksManager::add_task`: `self.tasks.push(task)`. -/
def add_task (mgr : TasksManager) (task : Task) : TasksManager :=
  ⟨mgr.tasks ++ [task]⟩

/-- Source `TasksManager::print_tasks` iterates the vector in order and prints each
task; modelled as the list of rendered tasks in iteration order. -/
def print_tasks (mgr : TasksManager) : List String :=
  mgr.tasks.map Task.render

/-- Model of `Iterator::position`: index of the first element satisfying `p`. -/
def findIdxAux (p : Task → Bool) : List Task → Option Nat
  | [] => none
  | t :: ts => if p t then some 0 else (findIdxAux p ts).map (· + 1)

/-- Source `TasksManager::find_task_index`:
`self.tasks.iter().position(|t| t.name == name)`. -/
def find_task_index (mgr : TasksManager) (name : String) : Option Nat :=
  findIdxAux (fun t => t.name == name) mgr.tasks

/-- Source `TasksManager::find_task`:
`self.tasks.iter().find(|t| t.name.to_string() == name.to_string())`
(`to_string` on a `String` is a clone, so the match rule is plain equality). -/
def find_task (mgr : TasksManager) (name : String) : Option Task :=
  mgr.tasks.find? (fun t => t.name == name)

/-- Source `TasksManager::remove_task`: find the first index with the given name and
`Vec::remove` it, or report not-found. -/
def remove_task (mgr : TasksManager) (name : String) :
    Except String String × TasksManager :=
  match find_task_index mgr name with
  | some index => (.ok ("Task " ++ name ++ " is removed"), ⟨mgr.tasks.eraseIdx index⟩)
  | none => (.error ("Task " ++ name ++ " not found"), mgr)

/-- Source `TasksManager::edit_task`: find the first index with the given name,
`get_mut` it and overwrite every field with the fields of `new_task`; the inner
`None` arm of `get_mut` yields the "Error borrowing task index" message. -/
def edit_task (mgr : TasksManager) (name : String) (new_task : Task) :
    Except String String × TasksManager :=
  match find_task_index mgr name with
  | some index =>
    match mgr.tasks[index]? with
    | some _ => (.ok ("Task " ++ name ++ " is removed"), ⟨mgr.tasks.set index new_task⟩)
    | none => (.error "Error borrowing task index", mgr)
  | none => (.error ("Task " ++ name ++ " not found"), mgr)

/-- JSON values, the data serde_json reads and writes.  `obj` keeps fields in
the order they are written. -/
inductive Json where
  | null
  | bool (b : Bool)
  | num (n : Int)
  | str (s : String)
  | arr (elems : List Json)
  | obj (fields : List (String × Json))

/-- Field lookup in a JSON object, first occurrence wins (the behaviour of the serde
for the generated struct deserializer on the fields it expects). -/
def getField : List (String × Json) → String → Option Json
  | [], _ => none
  | (k, v) :: rest, key => if key = k then some v else getField rest key

/-- serde serialization of `Priority` (derive): a unit variant serializes as
its variant name string. -/
def encodePriority : Priority → Json
  | .Low => .str "Low"
  | .Medium => .str "Medium"
  | .High => .str "High"

/-- serde deserialization of `Priority` (derive): exactly the three variant
name strings are accepted. -/
def decodePriority : Json → Option Priority
  | .str "Low" => some .Low
  | .str "Medium" => some .Medium
  | .str "High" => some .High
  | _ => none

/-- serde serialization of `Task` (derive): an object with the four fields in
declaration order, the timestamp as its RFC 3339 string. -/
def encodeTask (t : Task) : Json :=
  .obj [("name", .str t.name), ("description", .str t.description),
        ("priority", encodePriority t.priority), ("add_time", .str t.add_time.toRfc3339)]

def asStr : Json → Option String
  | .str s => some s
  | _ => none

/-- serde deserialization of `Task` (derive): an object providing the four
expected fields with values of the right shapes. -/
def decodeTask : Json → Option Task
  | .obj fields =>
    match getField fields "name", getField fields "description",
          getField fields "priority", getField fields "add_time" with
    | some jn, some jd, some jp, some jt =>
      match asStr jn, asStr jd, decodePriority jp, (asStr jt).bind parseRfc3339 with
      | some n, some d, some p, some tm =>
        some { name := n, description := d, priority := p, add_time := tm }
      | _, _, _, _ => none
    | _, _, _, _ => none
  | _ => none

/-- serde serialization of `Vec<Task>`: a JSON array of the encoded tasks. -/
def encodeTasks (tasks : List Task) : Json :=
  .arr (tasks.map encodeTask)

/-- The serde sequence visitor: decode the elements in order, failing on the
first element that does not decode. -/
def decodeTaskList : List Json → Option (List Task)
  | [] => some []
  | j :: js =>
    match decodeTask j, decodeTaskList js with
    | some t, some ts => some (t :: ts)
    | _, _ => none

/-- serde deserialization of `Vec<Task>`: a JSON array each of whose elements
decodes to a task. -/
def decodeTasks : Json → Option (List Task)
  | .arr elems => decodeTaskList elems
  | _ => none

/-- The filesystem, as the persistence code observes it: a partial map from
file names to the JSON value stored in the file (`none` when
`Path::new(name).exists()` is false). -/
def FS := String → Option Json

/-- Writing a file: the map updated at one name. -/
def FS.write (fs : FS) (file_name : String) (j : Json) : FS :=
  fun q => if q = file_name then some j else fs q

/-- Source `TasksManager::store_to_file`: if no file exists at the name, create it
and write the whole task vector as one JSON array (serde_json `to_writer` in
a single call); if a file exists, fail with the "already exists" message and
touch nothing. -/
def store_to_file (mgr : TasksManager) (fs : FS) (file_name : String) :
    Except String String × FS :=
  if (fs file_name).isSome = false then
    (.ok "Success", fs.write file_name (encodeTasks mgr.tasks))
  else
    (.error ("File " ++ file_name ++ " already exists"), fs)

/-- Source `TasksManager::read_from_file`: if a file exists at the name, deserialize
it completely and only then assign `self.tasks`; on a deserialization error
return early, leaving `self.tasks` untouched; if no file exists, fail with
the "does not exists" message.  (The source formats the serde error into the
message; the embedding keeps the fixed prefix.) -/
def read_from_file (mgr : TasksManager) (fs : FS) (file_name : String) :
    Except String String × TasksManager :=
  match fs file_name with
  | some j =>
    match decodeTasks j with
    | some data => (.ok "Data read successfully", ⟨data⟩)
    | none => (.error "Error reading data", mgr)
  | none => (.error ("File " ++ file_name ++ " does not exists"), mgr)

/-! Concrete sample data, used to instantiate the theorems. -/

/-- A concrete in-range timestamp: 2024-04-05 03:02:01 at offset +03:00. -/
def sampleTime : LocalDateTime :=
  { year := 2024, month := 4, day := 5, hour := 3, minute := 2, second := 1,
    offNeg := false, offHour := 3, offMin := 0 }

/-- A concrete task. -/
def sampleTask : Task :=
  { name := "Buy milk", description := "2%", priority := .Low, add_time := sampleTime }

/-- A second concrete task sharing the shape of `sampleTask` but not its name. -/
def otherTask : Task :=
  { name := "Pay rent", description := "", priority := .High, add_time := sampleTime }

/-- Two distinct tasks that share the name "dup". -/
def dupFirst : Task :=
  { name := "dup", description := "first", priority := .Low, add_time := sampleTime }

def dupSecond : Task :=
  { name := "dup", description := "second", priority := .High, add_time := sampleTime }

/-- The empty filesystem: no file exists at any name. -/
def fsEmpty : FS := fun _ => none

/-! Helper lemmas: digits and the RFC 3339 round trip. -/

lemma digitVal_digitChar : ∀ n < 10, digitVal (digitChar n) = n := by decide

lemma isDigit_digitChar : ∀ n < 10, (digitChar n).isDigit = true := by decide

lemma digitChar_ne_newline (n : Nat) : digitChar n ≠ '\n' := by
  intro h
  have h10 : (digitChar n).toNat = 10 := by rw [h]; rfl
  unfold digitChar Char.ofNat at h10
  split at h10
  · exact absurd (show 48 + n = 10 from h10) (by omega)
  · exact absurd h10 (by decide)

lemma parseRfc3339_toRfc3339 (dt : LocalDateTime) (h : dt.Valid) :
    parseRfc3339 dt.toRfc3339 = some dt := by
  obtain ⟨hy, hm1, hm2, hd1, hd2, hh, hmin, hs, hoh, hom⟩ := h
  show parseRfc3339 ⟨_⟩ = some dt
  rw [parseRfc3339]
  simp only [pad4, pad2, List.cons_append, List.nil_append, String.data]
  rw [if_pos]
  · have e : ∀ a < 10, ∀ b < 10,
        digitVal (digitChar a) * 10 + digitVal (digitChar b) = a * 10 + b := by
      intro a ha b hb; rw [digitVal_digitChar a ha, digitVal_digitChar b hb]
    congr 1
    cases dt with
    | mk year month day hour minute second offNeg offHour offMin =>
      simp only at *
      congr 1
      · rw [digitVal_digitChar _ (by omega), digitVal_digitChar _ (by omega),
            digitVal_digitChar _ (by omega), digitVal_digitChar _ (by omega)]
        omega
      · rw [e _ (by omega) _ (by omega)]; omega
      · rw [e _ (by omega) _ (by omega)]; omega
      · rw [e _ (by omega) _ (by omega)]; omega
      · rw [e _ (by omega) _ (by omega)]; omega
      · rw [e _ (by omega) _ (by omega)]; omega
      · cases offNeg <;> simp
      · rw [e _ (by omega) _ (by omega)]; omega
      · rw [e _ (by omega) _ (by omega)]; omega
  · refine ⟨trivial, trivial, trivial, trivial, trivial, trivial, ?_, ?_, ?_, ?_, ?_, ?_,
      ?_, ?_, ?_, ?_, ?_, ?_, ?_, ?_, ?_, ?_, ?_, ?_, ?_⟩
    · cases dt.offNeg <;> simp
    all_goals exact isDigit_digitChar _ (by omega)

lemma decodePriority_encodePriority (p : Priority) :
    decodePriority (encodePriority p) = some p := by
  cases p <;> rfl

lemma decodeTask_encodeTask (t : Task) (h : t.add_time.Valid) :
    decodeTask (encodeTask t) = some t := by
  simp [decodeTask, encodeTask, getField, asStr, decodePriority_encodePriority,
    parseRfc3339_toRfc3339 t.add_time h]

lemma decodeTasks_encodeTasks (tasks : List Task) (h : ∀ t ∈ tasks, t.add_time.Valid) :
    decodeTasks (encodeTasks tasks) = some tasks := by
  induction tasks with
  | nil => rfl
  | cons t ts ih =>
    have ht : t.add_time.Valid := h t (by simp)
    have hts := ih (fun u hu => h u (by simp [hu]))
    simp only [encodeTasks, decodeTasks, List.map_cons, decodeTaskList,
      decodeTask_encodeTask t ht] at *
    rw [hts]

/-! Helper lemmas: first-index search, removal, line splitting. -/

lemma findIdxAux_some {p : Task → Bool} :
    ∀ {l : List Task} {i : Nat}, findIdxAux p l = some i →
      ∃ t, l[i]? = some t ∧ p t = true ∧ ∀ j < i, ∀ u, l[j]? = some u → p u = false := by
  intro l
  induction l with
  | nil => intro i h; simp [findIdxAux] at h
  | cons t ts ih =>
    intro i h
    rw [findIdxAux] at h
    by_cases hp : p t
    · rw [if_pos hp] at h
      cases h
      exact ⟨t, by simp, hp, by omega⟩
    · rw [if_neg hp, Option.map_eq_some'] at h
      obtain ⟨j, hj, rfl⟩ := h
      obtain ⟨u, hu, hpu, hfirst⟩ := ih hj
      refine ⟨u, by simpa using hu, hpu, ?_⟩
      intro k hk v hv
      cases k with
      | zero =>
        simp at hv
        subst hv
        simpa using hp
      | succ k =>
        exact hfirst k (by omega) v (by simpa using hv)

lemma findIdxAux_some_lt {p : Task → Bool} {l : List Task} {i : Nat}
    (h : findIdxAux p l = some i) : i < l.length := by
  obtain ⟨t, ht, -⟩ := findIdxAux_some h
  exact (List.getElem?_eq_some.mp ht).1

lemma findIdxAux_none {p : Task → Bool} :
    ∀ {l : List Task}, findIdxAux p l = none ↔ ∀ t ∈ l, p t = false := by
  intro l
  induction l with
  | nil => simp [findIdxAux]
  | cons t ts ih =>
    rw [findIdxAux]
    by_cases hp : p t
    · simp [hp]
    · simp only [if_neg hp, Option.map_eq_none', ih, List.mem_cons]
      constructor
      · rintro hall u (rfl | hu)
        · simpa using hp
        · exact hall u hu
      · intro hall u hu
        exact hall u (Or.inr hu)

lemma find?_eq_findIdxAux (p : Task → Bool) :
    ∀ l : List Task, l.find? p = (findIdxAux p l).bind (fun i => l[i]?) := by
  intro l
  induction l with
  | nil => rfl
  | cons t ts ih =>
    rw [List.find?, findIdxAux]
    by_cases hp : p t
    · simp [hp]
    · rw [if_neg hp]
      simp only [hp, Option.map_eq_map, Option.bind_map]
      rw [ih]
      cases findIdxAux p ts <;> simp

lemma countP_eraseIdx_of_findIdxAux {p : Task → Bool} :
    ∀ {l : List Task} {i : Nat}, findIdxAux p l = some i →
      (l.eraseIdx i).countP p + 1 = l.countP p := by
  intro l
  induction l with
  | nil => intro i h; simp [findIdxAux] at h
  | cons t ts ih =>
    intro i h
    rw [findIdxAux] at h
    by_cases hp : p t
    · rw [if_pos hp] at h
      cases h
      simp [List.countP_cons_of_pos _ _ hp]
    · rw [if_neg hp, Option.map_eq_some'] at h
      obtain ⟨j, hj, rfl⟩ := h
      rw [List.eraseIdx_cons_succ, List.countP_cons_of_neg _ _ (by simpa using hp),
        List.countP_cons_of_neg _ _ (by simpa using hp)]
      exact ih hj

lemma lineSplit_ne_nil : ∀ l : List Char, lineSplit l ≠ [] := by
  intro l
  cases l with
  | nil => simp [lineSplit]
  | cons c rest =>
    rw [lineSplit]
    by_cases hc : c = '\n'
    · simp [hc]
    · rw [if_neg hc]
      cases lineSplit rest <;> simp

lemma lineSplit_no_newline : ∀ {l : List Char}, '\n' ∉ l → lineSplit l = [l] := by
  intro l
  induction l with
  | nil => intro _; rfl
  | cons c rest ih =>
    intro h
    have hc : c ≠ '\n' := fun hc => h (by simp [hc])
    have hrest : '\n' ∉ rest := fun hr => h (by simp [hr])
    rw [lineSplit, if_neg hc, ih hrest]

lemma lineSplit_append {a : List Char} (b : List Char) (ha : '\n' ∉ a) :
    lineSplit (a ++ '\n' :: b) = a :: lineSplit b := by
  induction a with
  | nil => simp [lineSplit]
  | cons c rest ih =>
    have hc : c ≠ '\n' := fun hc => ha (by simp [hc])
    have hrest : '\n' ∉ rest := fun hr => ha (by simp [hr])
    rw [List.cons_append, lineSplit, if_neg hc, ih hrest]

lemma newline_not_mem_pad2 (n : Nat) : '\n' ∉ pad2 n := by
  simp only [pad2, List.mem_cons, List.not_mem_nil, or_false]
  rintro (h | h) <;> exact digitChar_ne_newline _ h.symm

lemma newline_not_mem_pad4 (n : Nat) : '\n' ∉ pad4 n := by
  simp only [pad4, List.mem_cons, List.not_mem_nil, or_false]
  rintro (h | h | h | h) <;> exact digitChar_ne_newline _ h.symm

lemma newline_not_mem_format (dt : LocalDateTime) : '\n' ∉ dt.format.data := by
  show '\n' ∉ _
  simp only [LocalDateTime.format, List.mem_append, List.mem_cons,
    newline_not_mem_pad2, newline_not_mem_pad4]
  intro h
  rcases h with h | h <;> simp_all [newline_not_mem_pad2, newline_not_mem_pad4]

lemma newline_not_mem_to_string (p : Priority) : '\n' ∉ p.to_string.data := by
  cases p <;> decide

lemma not_found_ne_borrow (name : String) :
    ("Task " ++ name ++ " not found") ≠ "Error borrowing task index" := by
  intro h
  have hd : ("Task " ++ name ++ " not found").data =
      ("Error borrowing task index").data := by rw [h]
  simp [String.data] at hd

/-! The claims. -/

/-- C4: `add_task` appends the new task unconditionally (no duplicate-name
check — the result is always the old list with the task at the end), a
sequence of adds yields exactly the list of added tasks in insertion order,
and `print_tasks` renders the tasks in that same order. -/
theorem claim_C4_add_appends_in_order :
    (∀ (mgr : TasksManager) (t : Task), (add_task mgr t).tasks = mgr.tasks ++ [t]) ∧
    (∀ (adds : List Task) (mgr : TasksManager),
      (adds.foldl add_task mgr).tasks = mgr.tasks ++ adds) ∧
    (∀ adds : List Task,
      print_tasks (adds.foldl add_task TasksManager.new) = adds.map Task.render) := by
  have h2 : ∀ (adds : List Task) (mgr : TasksManager),
      (adds.foldl add_task mgr).tasks = mgr.tasks ++ adds := by
    intro adds
    induction adds with
    | nil => intro mgr; simp
    | cons t ts ih => intro mgr; rw [List.foldl_cons, ih]; simp [add_task]
  refine ⟨fun mgr t => rfl, h2, fun adds => ?_⟩
  rw [print_tasks, h2]
  simp [TasksManager.new]

/-- C7: `find_task_index` returns the position of the first task whose name
equals the query exactly (string equality is case-sensitive), it returns
`none` exactly when no task has that name, and `find_task` applies the same
match rule, returning the task at that first-match position. -/
theorem claim_C7_first_match_lookup :
    ∀ (mgr : TasksManager) (name : String),
      (∀ i, find_task_index mgr name = some i →
        ∃ t, mgr.tasks[i]? = some t ∧ t.name = name ∧
          ∀ j < i, ∀ u, mgr.tasks[j]? = some u → u.name ≠ name) ∧
      (find_task_index mgr name = none ↔ ∀ t ∈ mgr.tasks, t.name ≠ name) ∧
      find_task mgr name = (find_task_index mgr name).bind (fun i => mgr.tasks[i]?) := by
  intro mgr name
  refine ⟨?_, ?_, find?_eq_findIdxAux _ _⟩
  · intro i hi
    obtain ⟨t, ht, hpt, hfirst⟩ := findIdxAux_some hi
    exact ⟨t, ht, by simpa using hpt, fun j hj u hu => by simpa using hfirst j hj u hu⟩
  · rw [find_task_index, findIdxAux_none]
    constructor
    · intro h t ht; simpa using h t ht
    · intro h t ht; simpa using h t ht

/-- C7 witness: on a concrete repository holding `otherTask` then
`sampleTask`, the lookup for "Buy milk" finds index 1, and the task there is
named "Buy milk" while every earlier position is not. -/
theorem claim_C7_witness :
    ∃ t, (TasksManager.mk [otherTask, sampleTask]).tasks[1]? = some t ∧
      t.name = "Buy milk" ∧
      ∀ j < 1, ∀ u, (TasksManager.mk [otherTask, sampleTask]).tasks[j]? = some u →
        u.name ≠ "Buy milk" :=
  (claim_C7_first_match_lookup ⟨[otherTask, sampleTask]⟩ "Buy milk").1 1 (by decide)

/-- C8: the serde tag of every `Priority` value is exactly its variant name,
it coincides with the manual `Priority::to_string` labels, and deserializing
the tag yields the same variant back. -/
theorem claim_C8_priority_tags :
    encodePriority .Low = .str "Low" ∧ encodePriority .Medium = .str "Medium" ∧
    encodePriority .High = .str "High" ∧
    (∀ p : Priority, encodePriority p = .str p.to_string) ∧
    (∀ p : Priority, decodePriority (encodePriority p) = some p) := by
  refine ⟨rfl, rfl, rfl, ?_, decodePriority_encodePriority⟩
  intro p; cases p <;> rfl

/-- C10: whenever `find_task_index` returns an index it is in bounds, so the
`get_mut` in `edit_task` cannot miss: the "Error borrowing task index" branch
is unreachable for every repository state, name and replacement. -/
theorem claim_C10_borrow_branch_unreachable :
    ∀ (mgr : TasksManager) (name : String),
      (∀ i, find_task_index mgr name = some i → i < mgr.tasks.length) ∧
      (∀ nt, (edit_task mgr name nt).1 ≠ .error "Error borrowing task index") := by
  intro mgr name
  refine ⟨fun i hi => findIdxAux_some_lt hi, ?_⟩
  intro nt hcontra
  rw [edit_task] at hcontra
  cases hidx : find_task_index mgr name with
  | none =>
    rw [hidx] at hcontra
    exact not_found_ne_borrow name (by simpa using hcontra)
  | some i =>
    rw [hidx] at hcontra
    obtain ⟨t, ht, -⟩ := findIdxAux_some hidx
    simp [ht] at hcontra

/-- C10 witness: at a concrete repository where the lookup succeeds at index
0, the index is in bounds and the edit result is not the borrow error. -/
theorem claim_C10_witness :
    0 < (TasksManager.mk [sampleTask]).tasks.length ∧
    (edit_task ⟨[sampleTask]⟩ "Buy milk" otherTask).1 ≠
      .error "Error borrowing task index" :=
  ⟨(claim_C10_borrow_branch_unreachable ⟨[sampleTask]⟩ "Buy milk").1 0 (by decide),
   (claim_C10_borrow_branch_unreachable ⟨[sampleTask]⟩ "Buy milk").2 otherTask⟩

/-- C1: whenever `read_from_file` returns an error — the file being absent or
its contents failing to deserialize — the in-memory task list of the repository is exactly
what it was before the call, and on success the list is exactly the decoded
file contents (a full replacement, committed only after a complete parse). -/
theorem claim_C1_failed_load_preserves_state :
    ∀ (mgr : TasksManager) (fs : FS) (p : String),
      (∀ e, (read_from_file mgr fs p).1 = .error e → (read_from_file mgr fs p).2 = mgr) ∧
      (∀ msg, (read_from_file mgr fs p).1 = .ok msg →
        ∃ j, fs p = some j ∧ decodeTasks j = some (read_from_file mgr fs p).2.tasks) := by
  intro mgr fs p
  cases hf : fs p with
  | none =>
    constructor
    · intro e _; simp [read_from_file, hf]
    · intro msg hmsg; simp [read_from_file, hf] at hmsg
  | some j =>
    cases hd : decodeTasks j with
    | none =>
      constructor
      · intro e _; simp [read_from_file, hf, hd]
      · intro msg hmsg; simp [read_from_file, hf, hd] at hmsg
    | some data =>
      constructor
      · intro e he; simp [read_from_file, hf, hd] at he
      · intro msg _; exact ⟨j, rfl, by simp [read_from_file, hf, hd]⟩

/-- C1 witness: loading from a name with no file leaves a concrete nonempty
repository exactly as it was. -/
theorem claim_C1_witness :
    (read_from_file ⟨[sampleTask]⟩ fsEmpty "tasks.json").2 = ⟨[sampleTask]⟩ :=
  (claim_C1_failed_load_preserves_state ⟨[sampleTask]⟩ fsEmpty "tasks.json").1
    ("File " ++ "tasks.json" ++ " does not exists") rfl

/-- C2: when a file already exists at the target name, `store_to_file`
returns the "already exists" error and returns the filesystem untouched (including the contents of the
existing file; the repository is taken by shared
reference and never modified); when no file exists, it succeeds, the target
now holds the whole task sequence as one JSON array, and no other file is
touched. -/
theorem claim_C2_store_create_only :
    ∀ (mgr : TasksManager) (fs : FS) (p : String),
      ((fs p).isSome = true →
        store_to_file mgr fs p = (.error ("File " ++ p ++ " already exists"), fs)) ∧
      (fs p = none →
        (store_to_file mgr fs p).1 = .ok "Success" ∧
        (store_to_file mgr fs p).2 p = some (.arr (mgr.tasks.map encodeTask)) ∧
        ∀ q, q ≠ p → (store_to_file mgr fs p).2 q = fs q) := by
  intro mgr fs p
  constructor
  · intro hsome
    rw [store_to_file, if_neg]
    simp [hsome]
  · intro hnone
    have hcond : (fs p).isSome = false := by simp [hnone]
    rw [store_to_file, if_pos hcond]
    refine ⟨rfl, ?_, ?_⟩
    · simp [FS.write, encodeTasks]
    · intro q hq; simp [FS.write, hq]

/-- C2 witness: storing a concrete repository at a fresh name succeeds, the
file holds the encoded array, another name is untouched; storing again at the
now-occupied name fails with the "already exists" error and changes no
file. -/
theorem claim_C2_witness :
    (store_to_file ⟨[sampleTask]⟩ fsEmpty "out.json").1 = .ok "Success" ∧
    (store_to_file ⟨[sampleTask]⟩ fsEmpty "out.json").2 "out.json" =
      some (.arr [encodeTask sampleTask]) ∧
    (store_to_file ⟨[sampleTask]⟩ fsEmpty "out.json").2 "other.json" =
      fsEmpty "other.json" ∧
    store_to_file ⟨[sampleTask]⟩ ((store_to_file ⟨[sampleTask]⟩ fsEmpty "out.json").2)
      "out.json" =
      (.error ("File " ++ "out.json" ++ " already exists"),
       (store_to_file ⟨[sampleTask]⟩ fsEmpty "out.json").2) := by
  obtain ⟨h1, h2, h3⟩ :=
    (claim_C2_store_create_only ⟨[sampleTask]⟩ fsEmpty "out.json").2 rfl
  refine ⟨h1, h2, h3 "other.json" (by decide), ?_⟩
  exact (claim_C2_store_create_only ⟨[sampleTask]⟩
    ((store_to_file ⟨[sampleTask]⟩ fsEmpty "out.json").2) "out.json").1 (by rw [h2]; rfl)

/-- C6: when some task carries the queried name (`find_task_index` finds a
first index), `edit_task` succeeds, keeps the list length, stores the
replacement — all four fields, name included — at exactly the matched index,
and leaves every other position unchanged; when no task carries the name it
fails with the "not found" error and returns the repository unchanged. -/
theorem claim_C6_edit_replaces_in_place :
    ∀ (mgr : TasksManager) (name : String) (nt : Task),
      ((∃ t ∈ mgr.tasks, t.name = name) → ∃ i, find_task_index mgr name = some i) ∧
      (∀ i, find_task_index mgr name = some i →
        (edit_task mgr name nt).1 = .ok ("Task " ++ name ++ " is removed") ∧
        (edit_task mgr name nt).2.tasks.length = mgr.tasks.length ∧
        (edit_task mgr name nt).2.tasks[i]? = some nt ∧
        ∀ j, j ≠ i → (edit_task mgr name nt).2.tasks[j]? = mgr.tasks[j]?) ∧
      (find_task_index mgr name = none →
        edit_task mgr name nt = (.error ("Task " ++ name ++ " not found"), mgr)) := by
  intro mgr name nt
  refine ⟨?_, ?_, ?_⟩
  · rintro ⟨t, ht, hname⟩
    cases hidx : find_task_index mgr name with
    | some i => exact ⟨i, rfl⟩
    | none =>
      rw [find_task_index, findIdxAux_none] at hidx
      have := hidx t ht
      simp [hname] at this
  · intro i hi
    obtain ⟨t, ht, -, -⟩ := findIdxAux_some hi
    have hlt : i < mgr.tasks.length := findIdxAux_some_lt hi
    have hedit : edit_task mgr name nt =
        (.ok ("Task " ++ name ++ " is removed"), ⟨mgr.tasks.set i nt⟩) := by
      rw [edit_task, hi]
      simp [ht]
    rw [hedit]
    refine ⟨rfl, by simp, ?_, ?_⟩
    · simp [List.getElem?_set_self (by simpa using hlt)]
    · intro j hj
      simp [List.getElem?_set_ne (Ne.symm hj)]
  · intro hnone
    rw [edit_task, hnone]

/-- C6 witness: editing "Buy milk" in a two-task repository with a
replacement named "Laundry" succeeds, keeps length 2, puts the replacement at
the matched index 0 and leaves index 1 unchanged; editing a missing name
fails with the "not found" error and changes nothing. -/
theorem claim_C6_witness :
    (edit_task ⟨[sampleTask, otherTask]⟩ "Buy milk" dupFirst).1 =
      .ok ("Task " ++ "Buy milk" ++ " is removed") ∧
    (edit_task ⟨[sampleTask, otherTask]⟩ "Buy milk" dupFirst).2.tasks.length =
      (TasksManager.mk [sampleTask, otherTask]).tasks.length ∧
    (edit_task ⟨[sampleTask, otherTask]⟩ "Buy milk" dupFirst).2.tasks[0]? = some dupFirst ∧
    (edit_task ⟨[sampleTask, otherTask]⟩ "Buy milk" dupFirst).2.tasks[1]? =
      (TasksManager.mk [sampleTask, otherTask]).tasks[1]? ∧
    edit_task ⟨[sampleTask, otherTask]⟩ "missing" dupFirst =
      (.error ("Task " ++ "missing" ++ " not found"), ⟨[sampleTask, otherTask]⟩) := by
  obtain ⟨h1, h2, h3, h4⟩ :=
    (claim_C6_edit_replaces_in_place ⟨[sampleTask, otherTask]⟩ "Buy milk" dupFirst).2.1
      0 (by decide)
  exact ⟨h1, h2, h3, h4 1 (by decide),
    (claim_C6_edit_replaces_in_place ⟨[sampleTask, otherTask]⟩ "missing" dupFirst).2.2
      (by decide)⟩

/-- C3: storing any repository at a name with no file, then loading that name
into a fresh repository, succeeds in both steps and reproduces the task
sequence exactly — every name, description, priority and timestamp, in the
same order.  (The timestamps carry the field ranges chrono guarantees by
construction.) -/
theorem claim_C3_save_load_round_trip :
    ∀ (mgr : TasksManager) (fs : FS) (p : String),
      fs p = none → (∀ t ∈ mgr.tasks, t.add_time.Valid) →
      (store_to_file mgr fs p).1 = .ok "Success" ∧
      (read_from_file TasksManager.new (store_to_file mgr fs p).2 p).1 =
        .ok "Data read successfully" ∧
      (read_from_file TasksManager.new (store_to_file mgr fs p).2 p).2.tasks =
        mgr.tasks := by
  intro mgr fs p hfs hvalid
  have hstore : store_to_file mgr fs p =
      (.ok "Success", fs.write p (encodeTasks mgr.tasks)) := by
    rw [store_to_file, if_pos (by simp [hfs])]
  have hat : (fs.write p (encodeTasks mgr.tasks)) p = some (encodeTasks mgr.tasks) := by
    simp [FS.write]
  have hread : read_from_file TasksManager.new (fs.write p (encodeTasks mgr.tasks)) p =
      (.ok "Data read successfully", ⟨mgr.tasks⟩) := by
    rw [read_from_file, hat]
    simp [decodeTasks_encodeTasks mgr.tasks hvalid]
  rw [hstore]
  exact ⟨rfl, by rw [hread], by rw [hread]⟩

/-- C3 witness: the round trip on a concrete two-task repository at a fresh
name reproduces both tasks, all fields, in order. -/
theorem claim_C3_witness :
    (store_to_file ⟨[sampleTask, otherTask]⟩ fsEmpty "out.json").1 = .ok "Success" ∧
    (read_from_file TasksManager.new
      (store_to_file ⟨[sampleTask, otherTask]⟩ fsEmpty "out.json").2 "out.json").1 =
      .ok "Data read successfully" ∧
    (read_from_file TasksManager.new
      (store_to_file ⟨[sampleTask, otherTask]⟩ fsEmpty "out.json").2 "out.json").2.tasks =
      (TasksManager.mk [sampleTask, otherTask]).tasks :=
  claim_C3_save_load_round_trip ⟨[sampleTask, otherTask]⟩ fsEmpty "out.json" rfl
    (by intro t ht; fin_cases ht <;> decide)

/-- C5 counterexample: the claim quantifies over every repository containing
at least one task with the queried name, but with two tasks both named "dup"
the removal deletes only the first, so the subsequent lookup still finds
one: `find` does not return not-found. -/
theorem claim_C5_counterexample :
    (∃ t ∈ (TasksManager.mk [dupFirst, dupSecond]).tasks, t.name = "dup") ∧
    find_task (remove_task ⟨[dupFirst, dupSecond]⟩ "dup").2 "dup" ≠ none := by
  exact ⟨⟨dupFirst, by simp, rfl⟩, by decide⟩

/-- C5 (amended): in a repository containing exactly one task with the
queried name, `remove_task` followed by `find_task` on that name returns
not-found. -/
theorem claim_C5_remove_then_find :
    ∀ (mgr : TasksManager) (name : String),
      mgr.tasks.countP (fun t => t.name == name) = 1 →
      find_task (remove_task mgr name).2 name = none := by
  intro mgr name hcount
  cases hidx : find_task_index mgr name with
  | none =>
    rw [find_task_index, findIdxAux_none] at hidx
    have h0 : mgr.tasks.countP (fun t => t.name == name) = 0 :=
      List.countP_eq_zero.mpr (by intro t ht; simpa using hidx t ht)
    omega
  | some i =>
    have herase := countP_eraseIdx_of_findIdxAux hidx
    have hrm : (remove_task mgr name).2 = ⟨mgr.tasks.eraseIdx i⟩ := by
      rw [remove_task, hidx]
    rw [hrm, find_task, List.find?_eq_none]
    intro x hx
    have h0 : (mgr.tasks.eraseIdx i).countP (fun t => t.name == name) = 0 := by omega
    simpa using List.countP_eq_zero.mp h0 x hx

/-- C5 witness: removing the uniquely-named "Buy milk" from a concrete
two-task repository and looking it up again returns not-found. -/
theorem claim_C5_witness :
    find_task (remove_task ⟨[sampleTask, otherTask]⟩ "Buy milk").2 "Buy milk" = none :=
  claim_C5_remove_then_find ⟨[sampleTask, otherTask]⟩ "Buy milk" (by decide)

/-- C9 counterexample: the first rendered line is not just
`name | priority-label | timestamp` — the source prefixes it with a `"> "`
marker — and a description containing a newline makes the representation more
than two lines. -/
theorem claim_C9_counterexample :
    (lineSplit (Task.render sampleTask).data).head? ≠
      some ("Buy milk | Low | 05-04-2024 03:02:01").data ∧
    (lineSplit (Task.render
      { name := "a", description := "b\nc", priority := .Low,
        add_time := sampleTime }).data).length ≠ 2 := by
  decide

/-- C9 (amended): for every task whose name and description contain no
newline character, the rendered representation is exactly two lines: line 1
is a `"> "` marker followed by the name, the priority label and the timestamp
formatted `DD-MM-YYYY HH:MM:SS`, separated by `" | "`; line 2 is the
description wrapped in the markers `"/ "` and `" /"`. -/
theorem claim_C9_render_two_lines :
    ∀ t : Task, '\n' ∉ t.name.data → '\n' ∉ t.description.data →
      lineSplit (Task.render t).data =
        [("> " ++ t.name ++ " | " ++ t.priority.to_string ++ " | " ++
            t.add_time.format).data,
         ("/ " ++ t.description ++ " /").data] := by
  intro t h1 h2
  have hdata : (Task.render t).data =
      ("> " ++ t.name ++ " | " ++ t.priority.to_string ++ " | " ++
        t.add_time.format).data ++
      '\n' :: ("/ " ++ t.description ++ " /").data := by
    simp [Task.render, List.append_assoc]
  have hgt : '\n' ∉ ("> ").data := by decide
  have hsep : '\n' ∉ (" | ").data := by decide
  have hline1 : '\n' ∉ ("> " ++ t.name ++ " | " ++ t.priority.to_string ++ " | " ++
      t.add_time.format).data := by
    intro hmem
    simp only [String.data_append] at hmem
    rcases List.mem_append.mp hmem with hm | hm
    · rcases List.mem_append.mp hm with hm | hm
      · rcases List.mem_append.mp hm with hm | hm
        · rcases List.mem_append.mp hm with hm | hm
          · rcases List.mem_append.mp hm with hm | hm
            · exact hgt hm
            · exact h1 hm
          · exact hsep hm
        · exact newline_not_mem_to_string t.priority hm
      · exact hsep hm
    · exact newline_not_mem_format t.add_time hm
  have hline2 : '\n' ∉ ("/ " ++ t.description ++ " /").data := by
    intro hmem
    simp only [String.data_append] at hmem
    rcases List.mem_append.mp hmem with hm | hm
    · rcases List.mem_append.mp hm with hm | hm
      · revert hm; decide
      · exact h2 hm
    · revert hm; decide
  rw [hdata, lineSplit_append _ hline1, lineSplit_no_newline hline2]

/-- C9 witness: the concrete sample task renders as the two expected
lines. -/
theorem claim_C9_witness :
    lineSplit (Task.render sampleTask).data =
      [("> " ++ "Buy milk" ++ " | " ++ (Priority.Low).to_string ++ " | " ++
          sampleTime.format).data,
       ("/ " ++ "2%" ++ " /").data] :=
  claim_C9_render_two_lines sampleTask (by decide) (by decide)

end TaskMgr
